import Mathlib

/-
  Verification of the CoinTaxman lot-matching and tax-classification engine
  (src/taxman.py) against its natural-language specification.

  The embedding below translates `Taxman._balance_coin`,
  `Taxman._evaluate_taxation_GERMANY` and `Taxman.evaluate_taxation` from
  src/taxman.py.  The collaborator modules (`balance_queue`, `transaction`,
  `config`, `misc`, `price_data`, `book`) are not part of the provided
  sources; their definitions are modelled from the specification and are
  marked as such in their doc comments.

  Python `Decimal` amounts are modelled as rationals; UTC timestamps as
  integers (any linearly ordered clock); the calendar-year function of a
  timestamp is a configuration field.
-/

namespace CoinTaxman

/-- Modelled from the spec: the closed set of Operation variants
(spec section 3; the `transaction` module is not in the provided sources). -/
inductive OpType where
  | buy
  | sell
  | fee
  | deposit
  | withdrawal
  | coinLend
  | coinLendEnd
  | staking
  | stakingEnd
  | coinLendInterest
  | stakingInterest
  | airdrop
  | commission
deriving DecidableEq, Repr

/-- Modelled from the spec: an Operation carries a platform identifier, an
asset symbol, a UTC timestamp and a positive quantity `change`
(spec section 3). The variant is the `opType` field. -/
structure Operation where
  platform : String
  coin : String
  utcTime : Int
  change : ℚ
  opType : OpType
deriving DecidableEq, Repr

/-- Modelled from the spec: a SoldPortion records that `sold` units,
originally acquired via the operation `op`, were consumed by a disposal
(spec section 3; field names follow the use sites in src/taxman.py:
`sc.op`, `sc.sold`). -/
structure SoldCoin where
  op : Operation
  sold : ℚ
deriving DecidableEq, Repr

/-- Modelled from the spec: a Lot is an acquisition with a remaining
unconsumed amount (spec section 3). -/
structure Lot where
  origin : Operation
  remaining : ℚ
deriving DecidableEq, Repr

/-- Modelled from the spec: a LotQueue holds the Lots of one
(platform, asset) pair plus the running fee buffer (spec section 4.1).
The head of `lots` is consumed first. -/
structure BalanceQueue where
  lots : List Lot
  bufferFee : ℚ
deriving DecidableEq, Repr

/-- Modelled from the spec: FIFO or LIFO cost-basis principle. -/
inductive Principle where
  | fifo
  | lifo
deriving DecidableEq, Repr

/-- Modelled from the spec: the configuration values consulted by the
engine (`config` module is not in the provided sources).  `yearOf` maps a
timestamp to its calendar year; `longTermThreshold` is the configured
long-term holding-period threshold, in the same units as timestamps. -/
structure Config where
  fiat : String
  taxYear : Int
  longTermThreshold : Int
  calculateVirtualSell : Bool
  exportAllEvents : Bool
  multiDepot : Bool
  principle : Principle
  yearOf : Int → Int

/-- Modelled from the spec: a holding period from `acquired` to `disposed`
is long term when it exceeds the configured threshold (spec section 4.4:
"holding period ... exceeding a configured long-term threshold"). -/
def Config.isLongTerm (cfg : Config) (acquired disposed : Int) : Bool :=
  decide (cfg.longTermThreshold < disposed - acquired)

/-- Modelled from the spec: the pricing oracle, valuing an operation or a
sold portion in the reporting fiat currency (spec section 6). -/
structure PriceData where
  getCostOp : Operation → ℚ
  getCostSc : SoldCoin → ℚ
  getPrice : String → String → Int → ℚ

/-- A transfer-match record, with the fields used by
`findWithdrawnCoins` in src/taxman.py (the `book` module is not in the
provided sources; modelled from the spec, section 3, TransferMatch). -/
structure DepositMatch where
  sourcePlatform : String
  sourceUtcTime : Int
  destPlatform : String
  destUtcTime : Int
  change : ℚ
deriving DecidableEq, Repr

/-- TaxEvent, translated from its construction sites in src/taxman.py. -/
structure TaxEvent where
  taxationType : String
  taxedGain : ℚ
  op : Operation
  isTaxable : Bool
  sellValue : ℚ := 0
  realGain : ℚ := 0
  remark : String := ""
deriving DecidableEq, Repr

/-- The exceptions that can abort the evaluation, one constructor per
Python exception raised by the translated code.  `insufficientFunds`
carries the diagnostic data of the `log.error` in `evaluate_sell`
(asset, platform, time, missing amount). -/
inductive ReplayError where
  | insufficientFunds (coin platform : String) (utcTime : Int) (missing : ℚ)
  | stopIteration
  | typeError
  | runtimeError
  | valueError
deriving DecidableEq, Repr

/-- Modelled from the spec: queue consumption (spec section 4.1,
`consume`): walk the queue in order, take from each Lot up to its
remaining amount, return the sold portions, the shortfall and the
surviving lots. -/
def consumeLots : List Lot → ℚ → List SoldCoin × ℚ × List Lot
  | [], amount => ([], amount, [])
  | lot :: rest, amount =>
      if amount = 0 then ([], 0, lot :: rest)
      else if lot.remaining ≤ amount then
        let r := consumeLots rest (amount - lot.remaining)
        (⟨lot.origin, lot.remaining⟩ :: r.1, r.2.1, r.2.2)
      else
        ([⟨lot.origin, amount⟩], 0,
          { origin := lot.origin, remaining := lot.remaining - amount } :: rest)

/-- Modelled from the spec: `LotQueue.consume` (spec section 4.1). -/
def BalanceQueue.sell (q : BalanceQueue) (amount : ℚ) :
    List SoldCoin × ℚ × BalanceQueue :=
  let r := consumeLots q.lots amount
  (r.1, r.2.1, { q with lots := r.2.2 })

/-- Modelled from the spec: `LotQueue.consume_fee` (spec section 4.1):
identical consumption, but the shortfall accumulates into the fee buffer
instead of failing. -/
def BalanceQueue.removeFee (q : BalanceQueue) (amount : ℚ) :
    List SoldCoin × BalanceQueue :=
  let r := consumeLots q.lots amount
  (r.1, { lots := r.2.2, bufferFee := q.bufferFee + r.2.1 })

/-- Modelled from the spec: `LotQueue.acquire` (spec section 4.1): the fee
buffer is settled against the acquired amount first; what remains becomes
a new Lot at the tail (FIFO) or head (LIFO). -/
def BalanceQueue.put (q : BalanceQueue) (principle : Principle)
    (op : Operation) : BalanceQueue :=
  let settled := min q.bufferFee op.change
  let rest := op.change - settled
  let buf := q.bufferFee - settled
  if 0 < rest then
    match principle with
    | .fifo => { lots := q.lots ++ [{ origin := op, remaining := rest }], bufferFee := buf }
    | .lifo => { lots := { origin := op, remaining := rest } :: q.lots, bufferFee := buf }
  else { lots := q.lots, bufferFee := buf }

def lotsTotal (lots : List Lot) : ℚ :=
  (lots.map Lot.remaining).sum

def queueTotal (q : BalanceQueue) : ℚ :=
  lotsTotal q.lots

/-- Translation of the inner `evaluate_sell` helper of
`Taxman._balance_coin` (src/taxman.py lines 295-314): consume from the
queue; a non-zero shortfall logs a diagnostic (asset, platform, time and
missing amount) and raises `RuntimeError`. -/
def evaluateSellStep (coin : String) (q : BalanceQueue) (op : Operation) :
    Except ReplayError (List SoldCoin × BalanceQueue) :=
  let r := q.sell op.change
  if r.2.1 ≠ 0 then
    .error (.insufficientFunds coin op.platform op.utcTime r.2.1)
  else
    .ok (r.1, r.2.2)

/-- The per-platform loop state of `Taxman._balance_coin`: the platform's
queue, the balanced operations appended so far, and the withdrawal records
collected so far (the latter list is shared across platforms). -/
structure ReplayState where
  queue : BalanceQueue
  balanced : List (Operation × Option (List SoldCoin))
  withdrawals : List (Operation × List SoldCoin)
deriving Repr

/-- Translation of one iteration of the `while current_platform` loop of
`Taxman._balance_coin` (src/taxman.py lines 316-359): dispatch on the
operation variant, update the queue, and append the pair
`(op, sold_coins)` to the platform's balanced operations. -/
def processOp (cfg : Config) (coin : String) (st : ReplayState)
    (op : Operation) : Except ReplayError ReplayState :=
  match op.opType with
  | .fee =>
      let r := st.queue.removeFee op.change
      .ok { st with queue := r.2, balanced := st.balanced ++ [(op, some r.1)] }
  | .coinLend => .ok { st with balanced := st.balanced ++ [(op, none)] }
  | .coinLendEnd => .ok { st with balanced := st.balanced ++ [(op, none)] }
  | .staking => .ok { st with balanced := st.balanced ++ [(op, none)] }
  | .stakingEnd => .ok { st with balanced := st.balanced ++ [(op, none)] }
  | .buy =>
      .ok { st with queue := st.queue.put cfg.principle op,
                    balanced := st.balanced ++ [(op, none)] }
  | .sell =>
      match evaluateSellStep coin st.queue op with
      | .error e => .error e
      | .ok r =>
          .ok { st with queue := r.2, balanced := st.balanced ++ [(op, some r.1)] }
  | .coinLendInterest =>
      .ok { st with queue := st.queue.put cfg.principle op,
                    balanced := st.balanced ++ [(op, none)] }
  | .stakingInterest =>
      .ok { st with queue := st.queue.put cfg.principle op,
                    balanced := st.balanced ++ [(op, none)] }
  | .airdrop =>
      .ok { st with queue := st.queue.put cfg.principle op,
                    balanced := st.balanced ++ [(op, none)] }
  | .commission =>
      .ok { st with queue := st.queue.put cfg.principle op,
                    balanced := st.balanced ++ [(op, none)] }
  | .deposit =>
      -- src/taxman.py line 352: a Deposit is simply `put` into the
      -- destination queue, i.e. it becomes a fresh lot whose origin is
      -- the Deposit operation itself (dated at the deposit time).
      .ok { st with queue := st.queue.put cfg.principle op,
                    balanced := st.balanced ++ [(op, none)] }
  | .withdrawal =>
      match evaluateSellStep coin st.queue op with
      | .error e => .error e
      | .ok r =>
          .ok { queue := r.2,
                balanced := st.balanced ++ [(op, some r.1)],
                withdrawals := st.withdrawals ++ [(op, r.1)] }

/-- Run `processOp` over one platform's operation list in order. -/
def processOps (cfg : Config) (coin : String) :
    ReplayState → List Operation → Except ReplayError ReplayState
  | st, [] => .ok st
  | st, op :: rest =>
      match processOp cfg coin st op with
      | .error e => .error e
      | .ok st' => processOps cfg coin st' rest

/-- Modelled from the spec: `misc.group_by` (the `misc` module is not in
the provided sources).  Groups a list by a string key, preserving the
order of first key occurrence and the original order inside each group,
like a Python dict built by insertion. -/
def addToGroup (key : String) (op : Operation) :
    List (String × List Operation) → List (String × List Operation)
  | [] => [(key, [op])]
  | (k, items) :: rest =>
      if k == key then (k, items ++ [op]) :: rest
      else (k, items) :: addToGroup key op rest

def groupByKeyAux (f : Operation → String)
    (acc : List (String × List Operation)) :
    List Operation → List (String × List Operation)
  | [] => acc
  | op :: rest => groupByKeyAux f (addToGroup (f op) op acc) rest

def groupByKey (f : Operation → String) (ops : List Operation) :
    List (String × List Operation) :=
  groupByKeyAux f [] ops

/-- Translation of the platform walk of `Taxman._balance_coin`: each
platform's operations are processed against a fresh queue; the withdrawal
records accumulate across platforms. -/
def replayPlatforms (cfg : Config) (coin : String) :
    List (Operation × List SoldCoin) → List (String × List Operation) →
    Except ReplayError (List (String × ReplayState) × List (Operation × List SoldCoin))
  | w, [] => .ok ([], w)
  | w, (platform, ops) :: rest =>
      match processOps cfg coin { queue := ⟨[], 0⟩, balanced := [], withdrawals := w } ops with
      | .error e => .error e
      | .ok st =>
          match replayPlatforms cfg coin st.withdrawals rest with
          | .error e => .error e
          | .ok (others, w') => .ok ((platform, st) :: others, w')

/-- Whether `book.depositMatches` holds a record for this Deposit, i.e.
the generator of `findWithdrawnCoins` (src/taxman.py line 370) finds a
match by destination platform, destination time and amount. -/
def depositHasMatch (depositMatches : List DepositMatch) (op : Operation) : Bool :=
  depositMatches.any fun m =>
    m.destPlatform == op.platform && m.destUtcTime == op.utcTime
      && m.change == op.change

/-- Translation of the deposit fill-in pass of `Taxman._balance_coin`
(src/taxman.py lines 374-383) over one platform's balanced operations.
For a Deposit, `findWithdrawnCoins` is evaluated first: with no match the
bare `next` raises `StopIteration`; with a match it returns, and the
assignment `bop[1] = ...` into the appended immutable pair then raises
`TypeError`. -/
def fillInOps (depositMatches : List DepositMatch) :
    List (Operation × Option (List SoldCoin)) → Except ReplayError Unit
  | [] => .ok ()
  | (op, _) :: rest =>
      if op.opType = OpType.deposit then
        if depositHasMatch depositMatches op then .error .typeError
        else .error .stopIteration
      else fillInOps depositMatches rest

/-- The deposit fill-in pass over all platforms, in platform order. -/
def fillInAll (depositMatches : List DepositMatch) :
    List (String × ReplayState) → Except ReplayError Unit
  | [] => .ok ()
  | (_, st) :: rest =>
      match fillInOps depositMatches st.balanced with
      | .error e => .error e
      | .ok _ => fillInAll depositMatches rest

/-- Warning text of src/taxman.py lines 363-367 (outstanding fee buffer). -/
def bufferFeeWarning (platform : String) (buf : ℚ) (coin : String) : String :=
  "Balance on platform " ++ platform
    ++ " has outstanding fees which were not considered: "
    ++ toString buf ++ " " ++ coin

/-- The outstanding-fee check of src/taxman.py lines 361-367. -/
def bufferFeeWarnings (coin : String)
    (platStates : List (String × ReplayState)) : List String :=
  platStates.filterMap fun p =>
    if p.2.queue.bufferFee ≠ 0 then
      some (bufferFeeWarning p.1 p.2.queue.bufferFee coin)
    else none

/-- Translation of `Taxman._balance_coin` (src/taxman.py lines 279-385):
group by platform, replay each platform, emit outstanding-fee warnings,
then run the deposit fill-in pass and return the balanced operations per
platform. -/
def balanceCoin (cfg : Config) (depositMatches : List DepositMatch) (coin : String)
    (operations : List Operation) :
    Except ReplayError
      (List (String × List (Operation × Option (List SoldCoin))) × List String) :=
  match replayPlatforms cfg coin [] (groupByKey (fun op => op.platform) operations) with
  | .error e => .error e
  | .ok (platStates, _) =>
      match fillInAll depositMatches platStates with
      | .error e => .error e
      | .ok _ =>
          .ok (platStates.map fun p => (p.1, p.2.balanced),
               bufferFeeWarnings coin platStates)

/-- Translation of `Taxman.in_tax_year` (src/taxman.py lines 66-67). -/
def inTaxYear (cfg : Config) (op : Operation) : Bool :=
  cfg.yearOf op.utcTime == cfg.taxYear

/-- Modelled from the spec: `misc.is_fiat` (the `misc` module is not in
the provided sources): whether an asset symbol is the reporting fiat
currency. -/
def isFiat (cfg : Config) (coin : String) : Bool :=
  coin == cfg.fiat

/-- The isinstance tuple of src/taxman.py lines 93-101: the origin
operation is an Airdrop, CoinLendInterest, StakingInterest or
Commission. -/
def isNonTaxableOrigin : OpType → Bool
  | .airdrop => true
  | .coinLendInterest => true
  | .stakingInterest => true
  | .commission => true
  | _ => false

/-- The per-portion taxability test of `evaluate_sell` in
`Taxman._evaluate_taxation_GERMANY` (src/taxman.py lines 90-103). -/
def scIsTaxable (cfg : Config) (op : Operation) (sc : SoldCoin) : Bool :=
  !cfg.isLongTerm sc.op.utcTime op.utcTime
    && !(isNonTaxableOrigin sc.op.opType && !(sc.op.coin == cfg.fiat))

/-- The per-portion gain of src/taxman.py lines 107-109:
`(sc.sold / op.change) * sell_value - get_cost(sc)`. -/
def portionGain (pd : PriceData) (op : Operation) (sellValue : ℚ)
    (sc : SoldCoin) : ℚ :=
  sc.sold / op.change * sellValue - pd.getCostSc sc

/-- The Python class name of an operation variant, used in remarks. -/
def opClassName : OpType → String
  | .buy => "Buy"
  | .sell => "Sell"
  | .fee => "Fee"
  | .deposit => "Deposit"
  | .withdrawal => "Withdrawal"
  | .coinLend => "CoinLend"
  | .coinLendEnd => "CoinLendEnd"
  | .staking => "Staking"
  | .stakingEnd => "StakingEnd"
  | .coinLendInterest => "CoinLendInterest"
  | .stakingInterest => "StakingInterest"
  | .airdrop => "Airdrop"
  | .commission => "Commission"

/-- The per-portion remark string of src/taxman.py lines 117-120. -/
def portionRemark (sc : SoldCoin) : String :=
  toString sc.sold ++ " vom " ++ toString sc.op.utcTime
    ++ " (" ++ opClassName sc.op.opType ++ ")"

/-- The aggregated remark of src/taxman.py lines 133-136. -/
def summaryRemark (soldCoins : List SoldCoin) : String :=
  String.intercalate ", " (soldCoins.map portionRemark)

/-- The loop over `sold_coins` of `evaluate_sell` in
`Taxman._evaluate_taxation_GERMANY` (src/taxman.py lines 89-131),
threading the running `taxed_gain`, `real_gain` and `any_sc_is_taxable`
accumulators and, in detailed-export mode, emitting one TaxEvent per sold
coin carrying the running totals.  In the source the gain is computed
only under `is_taxable or CALCULATE_VIRTUAL_SELL`, as an optimization;
the unguarded computation below updates the accumulators identically. -/
def sellLoop (cfg : Config) (pd : PriceData) (op : Operation) (sellValue : ℚ) :
    ℚ → ℚ → Bool → List SoldCoin → ℚ × ℚ × Bool × List TaxEvent
  | taxedGain, realGain, anyTaxable, [] => (taxedGain, realGain, anyTaxable, [])
  | taxedGain, realGain, anyTaxable, sc :: rest =>
      let isTax := scIsTaxable cfg op sc
      let gain := portionGain pd op sellValue sc
      let taxedGain' := if isTax then taxedGain + gain else taxedGain
      let realGain' := if cfg.calculateVirtualSell then realGain + gain else realGain
      let r := sellLoop cfg pd op sellValue taxedGain' realGain' (anyTaxable || isTax) rest
      if cfg.exportAllEvents then
        (r.1, r.2.1, r.2.2.1,
          { taxationType := "Sonstige Einkünfte", taxedGain := taxedGain',
            op := op, isTaxable := isTax, sellValue := sellValue,
            realGain := realGain', remark := portionRemark sc } :: r.2.2.2)
      else r

/-- Translation of `evaluate_sell` in `Taxman._evaluate_taxation_GERMANY`
(src/taxman.py lines 75-148): in detailed-export mode the list of
per-portion events, otherwise a single aggregated event. -/
def evaluateSellDE (cfg : Config) (pd : PriceData) (op : Operation)
    (soldCoins : List SoldCoin) : List TaxEvent :=
  let sellValue := pd.getCostOp op
  let r := sellLoop cfg pd op sellValue 0 0 false soldCoins
  if cfg.exportAllEvents then r.2.2.2
  else
    [{ taxationType := "Sonstige Einkünfte", taxedGain := r.1, op := op,
       isTaxable := r.2.2.1, sellValue := sellValue, realGain := r.2.1,
       remark := summaryRemark soldCoins }]

/-- The sum, over the taxable sold portions, of the per-portion gains
(the spec's description of the taxed gain of a disposal). -/
def taxedGainSum (cfg : Config) (pd : PriceData) (op : Operation)
    (sellValue : ℚ) (soldCoins : List SoldCoin) : ℚ :=
  ((soldCoins.filter fun sc => scIsTaxable cfg op sc).map
    (portionGain pd op sellValue)).sum

/-- The sum over all sold portions of the per-portion gains when
virtual-sell accounting is enabled, else zero (the spec's description of
the real gain of a disposal). -/
def realGainSum (cfg : Config) (pd : PriceData) (op : Operation)
    (sellValue : ℚ) (soldCoins : List SoldCoin) : ℚ :=
  if cfg.calculateVirtualSell then
    (soldCoins.map (portionGain pd op sellValue)).sum
  else 0

/-- The remark of the Buy branch, src/taxman.py lines 179-182. -/
def buyRemark (cfg : Config) (cost price : ℚ) (coin : String) : String :=
  "Kosten " ++ toString cost ++ " " ++ cfg.fiat ++ ", Preis "
    ++ toString price ++ " " ++ coin ++ "/" ++ cfg.fiat

/-- The warning of src/taxman.py lines 236-240 for a withdrawal of a
non-fiat asset. -/
def unresolvedWithdrawalWarning (op : Operation) (coin : String) : String :=
  "Unresolved withdrawal of " ++ toString op.change ++ " " ++ coin
    ++ " from " ++ op.platform ++ " at " ++ toString op.utcTime
    ++ ". The evaluation might be wrong."

/-- Translation of the dispatch on the operation variant inside
`Taxman._evaluate_taxation_GERMANY` (src/taxman.py lines 150-254),
producing the tax events and warnings of one balanced operation. -/
def classifyDE (cfg : Config) (pd : PriceData) (coin : String)
    (op : Operation) (soldCoins : Option (List SoldCoin)) :
    Except ReplayError (List TaxEvent × List String) :=
  match op.opType with
  | .fee =>
      let taxable := inTaxYear cfg op
      let tt := if taxable then "Sonstige Einkünfte"
                else "Sonstige Einkünfte außerhalb des Steuerjahres"
      .ok ([{ taxationType := tt, taxedGain := -(pd.getCostOp op),
              op := op, isTaxable := taxable }], [])
  | .coinLend =>
      .ok ([{ taxationType := "Krypto-Lending Beginn", taxedGain := 0,
              op := op, isTaxable := false }], [])
  | .coinLendEnd =>
      .ok ([{ taxationType := "Krypto-Lending Ende", taxedGain := 0,
              op := op, isTaxable := false }], [])
  | .staking =>
      .ok ([{ taxationType := "Krypto-Staking Beginn", taxedGain := 0,
              op := op, isTaxable := false }], [])
  | .stakingEnd =>
      .ok ([{ taxationType := "Krypto-Staking Ende", taxedGain := 0,
              op := op, isTaxable := false }], [])
  | .buy =>
      if op.coin == cfg.fiat then .ok ([], [])
      else
        let cost := pd.getCostOp op
        let price := pd.getPrice op.platform op.coin op.utcTime
        .ok ([{ taxationType := "Kauf", taxedGain := 0, op := op,
                isTaxable := false, remark := buyRemark cfg cost price op.coin }], [])
  | .sell =>
      if op.coin == cfg.fiat then .ok ([], [])
      else
        match soldCoins with
        | none =>
            -- iterating `None` as the sold-coins list raises TypeError
            .error .typeError
        | some scs => .ok (evaluateSellDE cfg pd op scs, [])
  | .coinLendInterest =>
      let taxable := inTaxYear cfg op
      if isFiat cfg coin then
        let tt := if taxable then "Einkünfte aus Kapitalvermögen"
                  else "Einkünfte aus Kapitalvermögen außerhalb des Steuerjahres"
        .ok ([{ taxationType := tt, taxedGain := pd.getCostOp op,
                op := op, isTaxable := taxable }], [])
      else
        let tt := if taxable then "Einkünfte aus sonstigen Leistungen"
                  else "Einkünfte aus sonstigen Leistungen außerhalb des Steuerjahres"
        .ok ([{ taxationType := tt, taxedGain := pd.getCostOp op,
                op := op, isTaxable := taxable }], [])
  | .stakingInterest =>
      let taxable := inTaxYear cfg op
      if isFiat cfg coin then
        -- src/taxman.py lines 203-208: staking a fiat currency is a
        -- fatal invariant violation (log.error followed by RuntimeError)
        .error .runtimeError
      else
        let tt := if taxable then "Einkünfte aus sonstigen Leistungen"
                  else "Einkünfte aus sonstigen Leistungen außerhalb des Steuerjahres"
        .ok ([{ taxationType := tt, taxedGain := pd.getCostOp op,
                op := op, isTaxable := taxable }], [])
  | .airdrop =>
      .ok ([{ taxationType := "Airdrop", taxedGain := 0, op := op,
              isTaxable := false, realGain := pd.getCostOp op }], [])
  | .commission =>
      let taxable := inTaxYear cfg op
      let tt := if taxable then "Einkünfte aus sonstigen Leistungen"
                else "Einkünfte aus sonstigen Leistungen außerhalb des Steuerjahres"
      .ok ([{ taxationType := tt, taxedGain := pd.getCostOp op,
              op := op, isTaxable := taxable }], [])
  | .deposit =>
      if op.coin == cfg.fiat then .ok ([], [])
      else
        .ok ([{ taxationType := "Einzahlung", taxedGain := 0, op := op,
                isTaxable := false }], [])
  | .withdrawal =>
      let warns := if coin == cfg.fiat then []
                   else [unresolvedWithdrawalWarning op coin]
      .ok ([{ taxationType := "Auszahlung", taxedGain := 0, op := op,
              isTaxable := false }], warns)

/-- Translation of the main loop of `Taxman._evaluate_taxation_GERMANY`
over the balanced operations of one coin, accumulating tax events and
warnings in order. -/
def evaluateTaxationDE (cfg : Config) (pd : PriceData) (coin : String) :
    List (Operation × Option (List SoldCoin)) →
    Except ReplayError (List TaxEvent × List String)
  | [] => .ok ([], [])
  | (op, scs) :: rest =>
      match classifyDE cfg pd coin op scs with
      | .error e => .error e
      | .ok (evs, ws) =>
          match evaluateTaxationDE cfg pd coin rest with
          | .error e => .error e
          | .ok (evs', ws') => .ok (evs ++ evs', ws ++ ws')

/-- Modelled from the spec: `transaction.sort_operations(ops, ["utc_time"])`
(the `transaction` module is not in the provided sources): a stable sort
in ascending time order (spec section 6: time-ordered, ties broken by
ingestion order). -/
def insertByTime (op : Operation) : List Operation → List Operation
  | [] => [op]
  | o :: os =>
      if o.utcTime < op.utcTime then o :: insertByTime op os
      else op :: o :: os

def sortOperations : List Operation → List Operation
  | [] => []
  | op :: rest => insertByTime op (sortOperations rest)

/-- Translation of the loop body of `Taxman.evaluate_taxation`
(src/taxman.py lines 387-402) over the coin groups: only the coin "EOS"
is balanced and handed to the country-specific classification call; every
other coin group is skipped.  In BOTH configuration branches the source
passes a dict where `_evaluate_taxation_GERMANY` expects a list of pairs:
the per-platform dict with MULTI_DEPOT (line 398) and
`{ "virtual" : consolidated_ops }` without it (line 402).  The callee's
loop (line 150) then iterates the dict's keys, and unpacking the key
string "virtual" (or a platform name) into `(op, sold_coins)` raises
ValueError, so the classification call never returns events; both
branches are modelled as that abort. -/
def evaluateCoins (cfg : Config) (pd : PriceData)
    (depositMatches : List DepositMatch) :
    List (String × List Operation) →
    Except ReplayError (List TaxEvent × List String)
  | [] => .ok ([], [])
  | (coin, coinOps) :: rest =>
      let this : Except ReplayError (List TaxEvent × List String) :=
        if coin == "EOS" then
          match balanceCoin cfg depositMatches coin (sortOperations coinOps) with
          | .error e => .error e
          | .ok _ => .error .valueError
        else .ok ([], [])
      match this with
      | .error e => .error e
      | .ok (evs, ws) =>
          match evaluateCoins cfg pd depositMatches rest with
          | .error e => .error e
          | .ok (evs', ws') => .ok (evs ++ evs', ws ++ ws')

/-- Translation of `Taxman.evaluate_taxation` (src/taxman.py lines
387-402): group the book's operations by coin and process the groups. -/
def evaluateTaxation (cfg : Config) (pd : PriceData)
    (depositMatches : List DepositMatch) (operations : List Operation) :
    Except ReplayError (List TaxEvent × List String) :=
  evaluateCoins cfg pd depositMatches (groupByKey (fun op => op.coin) operations)

/-- A concrete configuration used in witnesses and counterexamples. -/
def cfgEx : Config :=
  { fiat := "EUR", taxYear := 2021, longTermThreshold := 365,
    calculateVirtualSell := false, exportAllEvents := false,
    multiDepot := false, principle := .fifo,
    yearOf := fun _ => 2021 }

/-- `cfgEx` with detailed export and virtual-sell accounting enabled. -/
def cfgExAll : Config :=
  { cfgEx with exportAllEvents := true, calculateVirtualSell := true }

/-- A concrete pricing oracle used in witnesses and counterexamples. -/
def pdEx : PriceData :=
  { getCostOp := fun op => op.change * 2,
    getCostSc := fun sc => sc.sold,
    getPrice := fun _ _ _ => 3 }

def btcBuy : Operation := ⟨"binance", "BTC", 0, 1, .buy⟩

def eosBuy : Operation := ⟨"binance", "EOS", 0, 1, .buy⟩

def buyA : Operation := ⟨"A", "EOS", 0, 2, .buy⟩

def wdA : Operation := ⟨"A", "EOS", 10, 2, .withdrawal⟩

def depB : Operation := ⟨"B", "EOS", 20, 2, .deposit⟩

def dmEx : DepositMatch := ⟨"A", 10, "B", 20, 2⟩

def sellEx : Operation := ⟨"A", "EOS", 400, 6, .sell⟩

def scOld : SoldCoin := ⟨⟨"A", "EOS", 0, 5, .buy⟩, 5⟩

def scNew : SoldCoin := ⟨⟨"A", "EOS", 390, 5, .airdrop⟩, 1⟩

def feeEx : Operation := ⟨"A", "EOS", 5, 1, .fee⟩

def sellBig : Operation := ⟨"A", "EOS", 5, 3, .sell⟩

/-- A replay state holding one lot of 2 EOS, used in witnesses. -/
def stEx : ReplayState := ⟨⟨[⟨buyA, 2⟩], 0⟩, [], []⟩

lemma lotsTotal_nonneg (lots : List Lot)
    (hpos : ∀ l ∈ lots, 0 < l.remaining) : 0 ≤ lotsTotal lots := by
  induction lots with
  | nil => simp [lotsTotal]
  | cons l rest ih =>
      have h1 : 0 < l.remaining := hpos l (List.mem_cons_self l rest)
      have h2 : 0 ≤ lotsTotal rest := ih fun x hx => hpos x (List.mem_cons_of_mem l hx)
      simp only [lotsTotal, List.map_cons, List.sum_cons]
      have := add_le_add h1.le h2
      simpa [lotsTotal] using this

/-- The shortfall returned by `consumeLots` is exactly the part of the
requested amount that exceeds the queue total. -/
lemma consumeLots_shortfall (lots : List Lot) (amount : ℚ)
    (hpos : ∀ l ∈ lots, 0 < l.remaining) (ha : 0 ≤ amount) :
    (consumeLots lots amount).2.1 = max 0 (amount - lotsTotal lots) := by
  induction lots generalizing amount with
  | nil =>
      simp only [consumeLots, lotsTotal, List.map_nil, List.sum_nil, sub_zero]
      exact (max_eq_right ha).symm
  | cons lot rest ih =>
      have hlot : 0 < lot.remaining := hpos lot (List.mem_cons_self lot rest)
      have hrest : ∀ l ∈ rest, 0 < l.remaining :=
        fun x hx => hpos x (List.mem_cons_of_mem lot hx)
      by_cases h0 : amount = 0
      · subst h0
        have htot : 0 ≤ lotsTotal (lot :: rest) :=
          lotsTotal_nonneg _ hpos
        rw [show consumeLots (lot :: rest) 0 = ([], 0, lot :: rest) from by
          simp [consumeLots]]
        show (0 : ℚ) = max 0 (0 - lotsTotal (lot :: rest))
        exact (max_eq_left (by linarith)).symm
      · by_cases hle : lot.remaining ≤ amount
        · have ha' : 0 ≤ amount - lot.remaining := by linarith
          simp only [consumeLots, if_neg h0, if_pos hle]
          rw [ih (amount - lot.remaining) hrest ha']
          have : amount - lot.remaining - lotsTotal rest
              = amount - lotsTotal (lot :: rest) := by
            simp only [lotsTotal, List.map_cons, List.sum_cons]
            ring
          rw [this]
        · have hrt : 0 ≤ lotsTotal rest := lotsTotal_nonneg rest hrest
          simp only [lotsTotal] at hrt
          have : amount - lotsTotal (lot :: rest) ≤ 0 := by
            simp only [lotsTotal, List.map_cons, List.sum_cons]
            push_neg at hle
            linarith
          simp only [consumeLots, if_neg h0, if_neg hle]
          rw [max_eq_left this]

section SellLoopLemmas

variable (cfg : Config) (pd : PriceData) (op : Operation) (sv : ℚ)

lemma taxedGainSum_cons (sc : SoldCoin) (rest : List SoldCoin) :
    taxedGainSum cfg pd op sv (sc :: rest)
      = (if scIsTaxable cfg op sc then portionGain pd op sv sc else 0)
        + taxedGainSum cfg pd op sv rest := by
  by_cases h : scIsTaxable cfg op sc
  · simp [taxedGainSum, List.filter_cons, h]
  · simp [taxedGainSum, List.filter_cons, h]

lemma realGainSum_cons (sc : SoldCoin) (rest : List SoldCoin) :
    realGainSum cfg pd op sv (sc :: rest)
      = (if cfg.calculateVirtualSell then portionGain pd op sv sc else 0)
        + realGainSum cfg pd op sv rest := by
  by_cases h : cfg.calculateVirtualSell
  · simp [realGainSum, h]
  · simp [realGainSum, h]

/-- The first accumulator of `sellLoop` is the initial taxed gain plus the
sum of gains over the taxable portions. -/
lemma sellLoop_taxed (scs : List SoldCoin) :
    ∀ (tg rg : ℚ) (anyT : Bool),
      (sellLoop cfg pd op sv tg rg anyT scs).1
        = tg + taxedGainSum cfg pd op sv scs := by
  induction scs with
  | nil => intro tg rg anyT; simp [sellLoop, taxedGainSum]
  | cons sc rest ih =>
      intro tg rg anyT
      rw [taxedGainSum_cons]
      by_cases hexp : cfg.exportAllEvents <;>
        by_cases htax : scIsTaxable cfg op sc <;>
          simp [sellLoop, hexp, htax, ih, add_assoc]

/-- The second accumulator of `sellLoop` is the initial real gain plus,
when virtual-sell accounting is enabled, the sum of gains over all
portions. -/
lemma sellLoop_real (scs : List SoldCoin) :
    ∀ (tg rg : ℚ) (anyT : Bool),
      (sellLoop cfg pd op sv tg rg anyT scs).2.1
        = rg + realGainSum cfg pd op sv scs := by
  induction scs with
  | nil => intro tg rg anyT; simp [sellLoop, realGainSum]
  | cons sc rest ih =>
      intro tg rg anyT
      rw [realGainSum_cons]
      by_cases hexp : cfg.exportAllEvents <;>
        by_cases hv : cfg.calculateVirtualSell <;>
          simp [sellLoop, hexp, hv, ih, add_assoc]

/-- The third accumulator of `sellLoop` records whether any portion was
taxable. -/
lemma sellLoop_any (scs : List SoldCoin) :
    ∀ (tg rg : ℚ) (anyT : Bool),
      (sellLoop cfg pd op sv tg rg anyT scs).2.2.1
        = (anyT || scs.any fun sc => scIsTaxable cfg op sc) := by
  induction scs with
  | nil => intro tg rg anyT; simp [sellLoop]
  | cons sc rest ih =>
      intro tg rg anyT
      by_cases hexp : cfg.exportAllEvents <;>
        simp [sellLoop, hexp, ih, List.any_cons, Bool.or_assoc]

/-- In detailed-export mode `sellLoop` emits one event per sold coin. -/
lemma sellLoop_length (hexp : cfg.exportAllEvents = true)
    (scs : List SoldCoin) :
    ∀ (tg rg : ℚ) (anyT : Bool),
      (sellLoop cfg pd op sv tg rg anyT scs).2.2.2.length = scs.length := by
  induction scs with
  | nil => intro tg rg anyT; simp [sellLoop]
  | cons sc rest ih =>
      intro tg rg anyT
      simp [sellLoop, hexp, ih]

/-- In detailed-export mode, the event at index `k` carries the running
totals accumulated over the first `k+1` sold coins on top of the initial
accumulators, and the taxability of the `k`-th sold coin. -/
lemma sellLoop_get (hexp : cfg.exportAllEvents = true)
    (scs : List SoldCoin) :
    ∀ (tg rg : ℚ) (anyT : Bool) (k : ℕ) (ev : TaxEvent),
      (sellLoop cfg pd op sv tg rg anyT scs).2.2.2[k]? = some ev →
      ∃ hk : k < scs.length,
        ev = { taxationType := "Sonstige Einkünfte",
               taxedGain := tg + taxedGainSum cfg pd op sv (scs.take (k+1)),
               op := op,
               isTaxable := scIsTaxable cfg op (scs.get ⟨k, hk⟩),
               sellValue := sv,
               realGain := rg + realGainSum cfg pd op sv (scs.take (k+1)),
               remark := portionRemark (scs.get ⟨k, hk⟩) } := by
  induction scs with
  | nil =>
      intro tg rg anyT k ev hev
      simp [sellLoop] at hev
  | cons sc rest ih =>
      intro tg rg anyT k ev hev
      simp only [sellLoop, hexp, if_true] at hev
      match k with
      | 0 =>
          refine ⟨Nat.succ_pos _, ?_⟩
          simp only [List.getElem?_cons_zero, Option.some.injEq] at hev
          subst hev
          have ht : tg + taxedGainSum cfg pd op sv ((sc :: rest).take 1)
              = (if scIsTaxable cfg op sc then tg + portionGain pd op sv sc
                 else tg) := by
            rw [List.take_succ_cons, List.take_zero, taxedGainSum_cons]
            by_cases htax : scIsTaxable cfg op sc <;>
              simp [htax, taxedGainSum]
          have hr : rg + realGainSum cfg pd op sv ((sc :: rest).take 1)
              = (if cfg.calculateVirtualSell then rg + portionGain pd op sv sc
                 else rg) := by
            rw [List.take_succ_cons, List.take_zero, realGainSum_cons]
            by_cases hv : cfg.calculateVirtualSell <;>
              simp [hv, realGainSum]
          rw [ht, hr]
          rfl
      | k + 1 =>
          simp only [List.getElem?_cons_succ] at hev
          obtain ⟨hk, hev'⟩ := ih _ _ _ k ev hev
          refine ⟨Nat.succ_lt_succ hk, ?_⟩
          rw [hev']
          have ht : tg + taxedGainSum cfg pd op sv ((sc :: rest).take (k + 2))
              = (if scIsTaxable cfg op sc then tg + portionGain pd op sv sc
                 else tg) + taxedGainSum cfg pd op sv (rest.take (k + 1)) := by
            rw [List.take_succ_cons, taxedGainSum_cons]
            by_cases htax : scIsTaxable cfg op sc <;>
              simp [htax, add_assoc]
          have hr : rg + realGainSum cfg pd op sv ((sc :: rest).take (k + 2))
              = (if cfg.calculateVirtualSell then rg + portionGain pd op sv sc
                 else rg) + realGainSum cfg pd op sv (rest.take (k + 1)) := by
            rw [List.take_succ_cons, realGainSum_cons]
            by_cases hv : cfg.calculateVirtualSell <;>
              simp [hv, add_assoc]
          rw [ht, hr]
          rfl

end SellLoopLemmas

lemma isNonTaxableOrigin_iff (t : OpType) :
    isNonTaxableOrigin t = true ↔
      t ∈ ([.airdrop, .coinLendInterest, .stakingInterest, .commission] : List OpType) := by
  cases t <;> simp [isNonTaxableOrigin]

/-- The per-portion taxability test, spelled out: taxable when the holding
period does not exceed the threshold and the origin is not one of the
special acquisition variants in a non-fiat asset. -/
lemma scIsTaxable_iff (cfg : Config) (op : Operation) (sc : SoldCoin) :
    scIsTaxable cfg op sc = true ↔
      (op.utcTime - sc.op.utcTime ≤ cfg.longTermThreshold ∧
        ¬(sc.op.opType ∈ ([.airdrop, .coinLendInterest, .stakingInterest,
            .commission] : List OpType) ∧ sc.op.coin ≠ cfg.fiat)) := by
  rw [scIsTaxable]
  cases hA : cfg.isLongTerm sc.op.utcTime op.utcTime <;>
    cases hC : sc.op.coin == cfg.fiat <;>
      cases ht : sc.op.opType <;>
        simp_all [Config.isLongTerm, isNonTaxableOrigin, beq_iff_eq,
          not_lt, ne_eq, decide_eq_true_eq, decide_eq_false_iff_not] <;>
        omega

/-- `evaluateSellStep` fails exactly on a shortfall, with the diagnostic
naming the asset, platform, time and missing amount. -/
lemma evaluateSellStep_spec (coin : String) (q : BalanceQueue) (op : Operation)
    (hpos : ∀ l ∈ q.lots, 0 < l.remaining) (hc : 0 < op.change) :
    (queueTotal q < op.change →
      evaluateSellStep coin q op
        = .error (.insufficientFunds coin op.platform op.utcTime
            (op.change - queueTotal q))) ∧
    (op.change ≤ queueTotal q →
      ∃ r, evaluateSellStep coin q op = .ok r) := by
  have hs : (q.sell op.change).2.1 = max 0 (op.change - queueTotal q) := by
    simpa [BalanceQueue.sell, queueTotal] using
      consumeLots_shortfall q.lots op.change hpos hc.le
  constructor
  · intro h
    have hmax : max 0 (op.change - queueTotal q) = op.change - queueTotal q :=
      max_eq_right (by linarith)
    have hne : op.change - queueTotal q ≠ 0 := sub_ne_zero.mpr h.ne'
    simp only [evaluateSellStep, hs, hmax]
    rw [if_pos hne]
  · intro h
    have hmax : max 0 (op.change - queueTotal q) = 0 :=
      max_eq_left (by linarith)
    refine ⟨((q.sell op.change).1, (q.sell op.change).2.2), ?_⟩
    simp only [evaluateSellStep, hs, hmax]
    rw [if_neg (by simp)]

/-- Claim C4: a Sell or Withdrawal whose amount exceeds the total
remaining amount in the platform's queue makes replay fatal, with an
error diagnostic carrying the asset, the platform, the time and the
missing amount; a Sell or Withdrawal fully covered by the queue does not
raise. -/
theorem disposal_shortfall_fatal (cfg : Config) (coin : String)
    (st : ReplayState) (op : Operation)
    (hty : op.opType = OpType.sell ∨ op.opType = OpType.withdrawal)
    (hpos : ∀ l ∈ st.queue.lots, 0 < l.remaining) (hc : 0 < op.change) :
    (queueTotal st.queue < op.change →
      processOp cfg coin st op
        = .error (.insufficientFunds coin op.platform op.utcTime
            (op.change - queueTotal st.queue))) ∧
    (op.change ≤ queueTotal st.queue →
      ∃ st', processOp cfg coin st op = .ok st') := by
  obtain ⟨h1, h2⟩ := evaluateSellStep_spec coin st.queue op hpos hc
  rcases hty with hty | hty
  · refine ⟨fun h => by simp [processOp, hty, h1 h], fun h => ?_⟩
    obtain ⟨r, hr⟩ := h2 h
    refine ⟨{ queue := r.2, balanced := st.balanced ++ [(op, some r.1)],
              withdrawals := st.withdrawals }, ?_⟩
    simp [processOp, hty, hr]
  · refine ⟨fun h => by simp [processOp, hty, h1 h], fun h => ?_⟩
    obtain ⟨r, hr⟩ := h2 h
    refine ⟨{ queue := r.2, balanced := st.balanced ++ [(op, some r.1)],
              withdrawals := st.withdrawals ++ [(op, r.1)] }, ?_⟩
    simp [processOp, hty, hr]

theorem disposal_shortfall_fatal_witness :
    processOp cfgEx "EOS" stEx sellBig
      = .error (.insufficientFunds "EOS" sellBig.platform sellBig.utcTime
          (sellBig.change - queueTotal stEx.queue)) :=
  (disposal_shortfall_fatal cfgEx "EOS" stEx sellBig (Or.inl rfl)
    (by norm_num [stEx, buyA]) (by norm_num [sellBig])).1
    (by norm_num [queueTotal, lotsTotal, stEx, sellBig, buyA])

/-- Claim C5: a sold portion of a non-fiat Sell is classified taxable if
and only if the holding period from the portion's origin acquisition time
to the sell time does not exceed the configured long-term threshold and
the origin operation is not an Airdrop, CoinLendInterest, StakingInterest
or Commission whose asset differs from the reporting fiat currency. -/
theorem sold_portion_taxable_iff (cfg : Config) (pd : PriceData)
    (op : Operation) (scs : List SoldCoin) (k : ℕ) (ev : TaxEvent)
    (hexp : cfg.exportAllEvents = true)
    (_hsell : op.opType = OpType.sell) (_hnf : op.coin ≠ cfg.fiat)
    (hk : k < scs.length)
    (hev : (evaluateSellDE cfg pd op scs)[k]? = some ev) :
    ev.isTaxable = true ↔
      (op.utcTime - (scs.get ⟨k, hk⟩).op.utcTime ≤ cfg.longTermThreshold ∧
        ¬((scs.get ⟨k, hk⟩).op.opType ∈ ([.airdrop, .coinLendInterest,
            .stakingInterest, .commission] : List OpType) ∧
          (scs.get ⟨k, hk⟩).op.coin ≠ cfg.fiat)) := by
  have hev' : (sellLoop cfg pd op (pd.getCostOp op) 0 0 false scs).2.2.2[k]?
      = some ev := by
    simpa [evaluateSellDE, hexp] using hev
  obtain ⟨hk', hev2⟩ := sellLoop_get cfg pd op (pd.getCostOp op) hexp scs
    0 0 false k ev hev'
  rw [hev2]
  simpa using scIsTaxable_iff cfg op (scs.get ⟨k, hk⟩)

theorem sold_portion_taxable_iff_witness :
    (({ taxationType := "Sonstige Einkünfte", taxedGain := 0, op := sellEx,
        isTaxable := false, sellValue := pdEx.getCostOp sellEx,
        realGain := portionGain pdEx sellEx (pdEx.getCostOp sellEx) scOld,
        remark := portionRemark scOld } : TaxEvent).isTaxable = true ↔
      (sellEx.utcTime - scOld.op.utcTime ≤ cfgExAll.longTermThreshold ∧
        ¬(scOld.op.opType ∈ ([.airdrop, .coinLendInterest,
            .stakingInterest, .commission] : List OpType) ∧
          scOld.op.coin ≠ cfgExAll.fiat))) := by
  have hev : (evaluateSellDE cfgExAll pdEx sellEx [scOld])[0]?
      = some { taxationType := "Sonstige Einkünfte", taxedGain := 0,
               op := sellEx, isTaxable := false,
               sellValue := pdEx.getCostOp sellEx,
               realGain := portionGain pdEx sellEx (pdEx.getCostOp sellEx) scOld,
               remark := portionRemark scOld } := by
    norm_num [evaluateSellDE, sellLoop, cfgExAll, cfgEx, scIsTaxable,
      Config.isLongTerm, isNonTaxableOrigin, sellEx, scOld]
  exact sold_portion_taxable_iff cfgExAll pdEx sellEx [scOld] 0 _ rfl rfl
    (by decide) (by decide) hev

/-- Claim C6: in aggregated mode a Sell produces one event whose taxed
gain is the sum, over exactly the taxable portions, of
`(sc.sold / op.change) * sell_value - cost(sc)`, whose real gain is that
sum over all portions exactly when virtual-sell accounting is enabled
(and zero otherwise), both valued through the pricing oracle. -/
theorem sell_summary_gains (cfg : Config) (pd : PriceData) (op : Operation)
    (scs : List SoldCoin) (hexp : cfg.exportAllEvents = false) :
    evaluateSellDE cfg pd op scs =
      [{ taxationType := "Sonstige Einkünfte",
         taxedGain := taxedGainSum cfg pd op (pd.getCostOp op) scs,
         op := op,
         isTaxable := scs.any fun sc => scIsTaxable cfg op sc,
         sellValue := pd.getCostOp op,
         realGain := realGainSum cfg pd op (pd.getCostOp op) scs,
         remark := summaryRemark scs }] := by
  simp [evaluateSellDE, hexp, sellLoop_taxed, sellLoop_real, sellLoop_any]

theorem sell_summary_gains_witness :
    evaluateSellDE cfgEx pdEx sellEx [scOld, scNew] =
      [{ taxationType := "Sonstige Einkünfte",
         taxedGain := taxedGainSum cfgEx pdEx sellEx (pdEx.getCostOp sellEx)
           [scOld, scNew],
         op := sellEx,
         isTaxable := ([scOld, scNew] : List SoldCoin).any fun sc =>
           scIsTaxable cfgEx sellEx sc,
         sellValue := pdEx.getCostOp sellEx,
         realGain := realGainSum cfgEx pdEx sellEx (pdEx.getCostOp sellEx)
           [scOld, scNew],
         remark := summaryRemark [scOld, scNew] }] :=
  sell_summary_gains cfgEx pdEx sellEx [scOld, scNew] rfl

/-- Claim C10: in detailed-export mode a Sell emits one event per sold
portion; the event at index k carries the running taxed and real gains
accumulated over the first k+1 portions, and every event repeats the
whole operation's sell value. -/
theorem sell_detailed_running_totals (cfg : Config) (pd : PriceData)
    (op : Operation) (scs : List SoldCoin)
    (hexp : cfg.exportAllEvents = true) :
    (evaluateSellDE cfg pd op scs).length = scs.length ∧
    ∀ (k : ℕ) (ev : TaxEvent),
      (evaluateSellDE cfg pd op scs)[k]? = some ev →
        ev.taxedGain
            = taxedGainSum cfg pd op (pd.getCostOp op) (scs.take (k + 1)) ∧
        ev.realGain
            = realGainSum cfg pd op (pd.getCostOp op) (scs.take (k + 1)) ∧
        ev.sellValue = pd.getCostOp op := by
  constructor
  · simp [evaluateSellDE, hexp, sellLoop_length]
  · intro k ev hev
    have hev' : (sellLoop cfg pd op (pd.getCostOp op) 0 0 false scs).2.2.2[k]?
        = some ev := by
      simpa [evaluateSellDE, hexp] using hev
    obtain ⟨hk, hev2⟩ := sellLoop_get cfg pd op (pd.getCostOp op) hexp scs
      0 0 false k ev hev'
    rw [hev2]
    exact ⟨by simp, by simp, rfl⟩

theorem sell_detailed_running_totals_witness :
    (evaluateSellDE cfgExAll pdEx sellEx [scOld, scNew]).length
      = ([scOld, scNew] : List SoldCoin).length :=
  (sell_detailed_running_totals cfgExAll pdEx sellEx [scOld, scNew] rfl).1

/-- Claim C7: a Fee operation is classified into a single tax event whose
taxed gain is the negated valuation of the fee amount at fee time, and
which is taxable exactly when the fee's timestamp falls in the configured
tax year. -/
theorem fee_event_negated_cost (cfg : Config) (pd : PriceData)
    (coin : String) (op : Operation) (scs : Option (List SoldCoin))
    (hfee : op.opType = OpType.fee) :
    classifyDE cfg pd coin op scs =
      .ok ([{ taxationType := if inTaxYear cfg op then "Sonstige Einkünfte"
                else "Sonstige Einkünfte außerhalb des Steuerjahres",
              taxedGain := -(pd.getCostOp op), op := op,
              isTaxable := inTaxYear cfg op }], []) ∧
    (inTaxYear cfg op = true ↔ cfg.yearOf op.utcTime = cfg.taxYear) := by
  constructor
  · simp [classifyDE, hfee]
  · simp [inTaxYear, beq_iff_eq]

theorem fee_event_negated_cost_witness :
    classifyDE cfgEx pdEx "EOS" feeEx none =
      .ok ([{ taxationType := if inTaxYear cfgEx feeEx then "Sonstige Einkünfte"
                else "Sonstige Einkünfte außerhalb des Steuerjahres",
              taxedGain := -(pdEx.getCostOp feeEx), op := feeEx,
              isTaxable := inTaxYear cfgEx feeEx }], []) ∧
    (inTaxYear cfgEx feeEx = true ↔ cfgEx.yearOf feeEx.utcTime = cfgEx.taxYear) :=
  fee_event_negated_cost cfgEx pdEx "EOS" feeEx none rfl

/-- Claim C8: a Withdrawal of a non-fiat asset is classified without
raising: a warning flagging the evaluation as possibly wrong is surfaced
and a tax event with zero taxed gain and is_taxable false is still
produced. -/
theorem withdrawal_nonfatal_warning (cfg : Config) (pd : PriceData)
    (coin : String) (op : Operation) (scs : Option (List SoldCoin))
    (hwd : op.opType = OpType.withdrawal) (hnf : coin ≠ cfg.fiat) :
    classifyDE cfg pd coin op scs =
      .ok ([{ taxationType := "Auszahlung", taxedGain := 0, op := op,
              isTaxable := false }],
           [unresolvedWithdrawalWarning op coin]) := by
  have hb : (coin == cfg.fiat) = false := beq_eq_false_iff_ne.mpr hnf
  simp [classifyDE, hwd, hb]

theorem withdrawal_nonfatal_warning_witness :
    classifyDE cfgEx pdEx "EOS" wdA (some []) =
      .ok ([{ taxationType := "Auszahlung", taxedGain := 0, op := wdA,
              isTaxable := false }],
           [unresolvedWithdrawalWarning wdA "EOS"]) :=
  withdrawal_nonfatal_warning cfgEx pdEx "EOS" wdA (some []) rfl (by decide)

/-- Claim C1 (code bug): `evaluate_taxation` does not evaluate every
asset and produces no asset's TaxEvents at all.  The hardcoded filter in
src/taxman.py lines 392-396 skips every coin other than "EOS": a
one-operation book in BTC is never replayed or classified and yields no
events and no error (first conjunct).  The identical operation in EOS is
replayed, but the classification call is handed the dict
`{ "virtual" : consolidated_ops }` (line 402) whose key iteration raises
ValueError (second conjunct), so even the one unskipped asset never gets
its events. -/
theorem evaluate_taxation_skips_non_eos :
    evaluateTaxation cfgEx pdEx [] [btcBuy] = .ok ([], []) ∧
    evaluateTaxation cfgEx pdEx [] [eosBuy] = .error .valueError := by
  constructor
  · simp +decide [evaluateTaxation, evaluateCoins, groupByKey, groupByKeyAux,
      addToGroup, btcBuy]
  · norm_num +decide [evaluateTaxation, evaluateCoins, groupByKey,
      groupByKeyAux, addToGroup, sortOperations, insertByTime, balanceCoin,
      replayPlatforms, processOps, processOp, BalanceQueue.put, fillInAll,
      fillInOps, bufferFeeWarnings, cfgEx, eosBuy, min_def]

/-- Claim C2 (code bug): a matched Deposit is not re-acquired from the
matched Withdrawal's sold portions.  During replay the Deposit itself is
`put` into the destination queue as a fresh lot dated at the deposit time
(second conjunct), and the later fill-in pass aborts the whole balancing
with a TypeError (first conjunct), so no balanced output with re-acquired
portions is ever produced. -/
theorem matched_deposit_not_reacquired :
    balanceCoin cfgEx [dmEx] "EOS" [buyA, wdA, depB] = .error .typeError ∧
    processOp cfgEx "EOS" ⟨⟨[], 0⟩, [], []⟩ depB =
      .ok ⟨⟨[⟨depB, 2⟩], 0⟩, [(depB, none)], []⟩ := by
  constructor
  · norm_num +decide [balanceCoin, groupByKey, groupByKeyAux, addToGroup,
      replayPlatforms, processOps, processOp, BalanceQueue.put,
      evaluateSellStep, BalanceQueue.sell, consumeLots, fillInAll, fillInOps,
      depositHasMatch, bufferFeeWarnings, cfgEx, buyA, wdA, depB, dmEx,
      min_def]
  · norm_num +decide [processOp, BalanceQueue.put, cfgEx, depB, min_def]

/-- Claim C3 (code bug): a Deposit with no recorded transfer match does
not let the evaluation continue: the bare `next` in `findWithdrawnCoins`
(src/taxman.py line 370) raises StopIteration, aborting `_balance_coin`
instead of keeping the deposit as a fresh external acquisition. -/
theorem unmatched_deposit_raises :
    balanceCoin cfgEx [] "EOS" [depB] = .error .stopIteration := by
  norm_num +decide [balanceCoin, groupByKey, groupByKeyAux, addToGroup,
    replayPlatforms, processOps, processOp, BalanceQueue.put, fillInAll,
    fillInOps, depositHasMatch, bufferFeeWarnings, cfgEx, depB, min_def]

lemma addToGroup_self (key : String) (op : Operation) :
    ∀ acc, ∃ g ∈ addToGroup key op acc, op ∈ g.2 := by
  intro acc
  induction acc with
  | nil => exact ⟨(key, [op]), by simp [addToGroup]⟩
  | cons hd rest ih =>
      obtain ⟨k, items⟩ := hd
      by_cases hk : (k == key) = true
      · exact ⟨(k, items ++ [op]), by simp [addToGroup, hk]⟩
      · obtain ⟨g, hg, hop⟩ := ih
        exact ⟨g, by simp [addToGroup, hk, hg], hop⟩

lemma addToGroup_mono (key : String) (op x : Operation) :
    ∀ acc, (∃ g ∈ acc, x ∈ g.2) →
      ∃ g ∈ addToGroup key op acc, x ∈ g.2 := by
  intro acc
  induction acc with
  | nil => rintro ⟨g, hg, _⟩; simp at hg
  | cons hd rest ih =>
      rintro ⟨g, hg, hx⟩
      obtain ⟨k, items⟩ := hd
      by_cases hk : (k == key) = true
      · rcases List.mem_cons.mp hg with hg | hg
        · subst hg
          exact ⟨(k, items ++ [op]), by simp [addToGroup, hk],
            by simpa using List.mem_append_left [op] hx⟩
        · exact ⟨g, by simp [addToGroup, hk, hg], hx⟩
      · rcases List.mem_cons.mp hg with hg | hg
        · subst hg
          exact ⟨(k, items), by simp [addToGroup, hk], hx⟩
        · obtain ⟨g', hg', hx'⟩ := ih ⟨g, hg, hx⟩
          exact ⟨g', by simp [addToGroup, hk, hg'], hx'⟩

lemma addToGroup_src (key : String) (op x : Operation) :
    ∀ acc, (∃ g ∈ addToGroup key op acc, x ∈ g.2) →
      x = op ∨ ∃ g ∈ acc, x ∈ g.2 := by
  intro acc
  induction acc with
  | nil =>
      rintro ⟨g, hg, hx⟩
      simp [addToGroup] at hg
      subst hg
      simp at hx
      exact Or.inl hx
  | cons hd rest ih =>
      rintro ⟨g, hg, hx⟩
      obtain ⟨k, items⟩ := hd
      by_cases hk : (k == key) = true
      · simp only [addToGroup, hk, if_true] at hg
        rcases List.mem_cons.mp hg with hg | hg
        · subst hg
          rcases List.mem_append.mp hx with hx | hx
          · exact Or.inr ⟨(k, items), List.mem_cons_self _ _, hx⟩
          · simp at hx
            exact Or.inl hx
        · exact Or.inr ⟨g, List.mem_cons_of_mem _ hg, hx⟩
      · simp only [addToGroup, hk, if_false, Bool.false_eq_true] at hg
        rcases List.mem_cons.mp hg with hg | hg
        · subst hg
          exact Or.inr ⟨(k, items), List.mem_cons_self _ _, hx⟩
        · rcases ih ⟨g, hg, hx⟩ with h | ⟨g', hg', hx'⟩
          · exact Or.inl h
          · exact Or.inr ⟨g', List.mem_cons_of_mem _ hg', hx'⟩

lemma groupByKeyAux_mem (f : Operation → String) (x : Operation) :
    ∀ (ops : List Operation) (acc),
      (x ∈ ops ∨ ∃ g ∈ acc, x ∈ g.2) →
      ∃ g ∈ groupByKeyAux f acc ops, x ∈ g.2 := by
  intro ops
  induction ops with
  | nil =>
      rintro acc (h | h)
      · simp at h
      · simpa [groupByKeyAux] using h
  | cons op rest ih =>
      rintro acc (h | h)
      · rcases List.mem_cons.mp h with h | h
        · subst h
          exact ih _ (Or.inr (addToGroup_self (f x) x acc))
        · exact ih _ (Or.inl h)
      · exact ih _ (Or.inr (addToGroup_mono (f op) op x acc h))

lemma groupByKey_mem (f : Operation → String) (x : Operation)
    (ops : List Operation) (hx : x ∈ ops) :
    ∃ g ∈ groupByKey f ops, x ∈ g.2 :=
  groupByKeyAux_mem f x ops [] (Or.inl hx)

lemma groupByKeyAux_src (f : Operation → String) (x : Operation) :
    ∀ (ops : List Operation) (acc),
      (∃ g ∈ groupByKeyAux f acc ops, x ∈ g.2) →
      x ∈ ops ∨ ∃ g ∈ acc, x ∈ g.2 := by
  intro ops
  induction ops with
  | nil =>
      intro acc h
      exact Or.inr (by simpa [groupByKeyAux] using h)
  | cons op rest ih =>
      intro acc h
      rcases ih _ h with h' | h'
      · exact Or.inl (List.mem_cons_of_mem _ h')
      · rcases addToGroup_src (f op) op x acc h' with h'' | h''
        · exact Or.inl (h'' ▸ List.mem_cons_self _ _)
        · exact Or.inr h''

lemma groupByKey_src (f : Operation → String) (x : Operation)
    (ops : List Operation) (h : ∃ g ∈ groupByKey f ops, x ∈ g.2) :
    x ∈ ops := by
  rcases groupByKeyAux_src f x ops [] h with h' | ⟨g, hg, _⟩
  · exact h'
  · simp at hg

/-- Every successful `processOp` appends exactly the pair for its
operation to the balanced list. -/
lemma processOp_balanced (cfg : Config) (coin : String) (st : ReplayState)
    (op : Operation) (st' : ReplayState)
    (h : processOp cfg coin st op = .ok st') :
    ∃ sc, st'.balanced = st.balanced ++ [(op, sc)] := by
  cases hty : op.opType <;>
    simp only [processOp, hty] at h
  case sell =>
    cases hs : evaluateSellStep coin st.queue op with
    | error e => rw [hs] at h; simp at h
    | ok r =>
        rw [hs] at h
        simp only [Except.ok.injEq] at h
        exact ⟨some r.1, by rw [← h]⟩
  case withdrawal =>
    cases hs : evaluateSellStep coin st.queue op with
    | error e => rw [hs] at h; simp at h
    | ok r =>
        rw [hs] at h
        simp only [Except.ok.injEq] at h
        exact ⟨some r.1, by rw [← h]⟩
  all_goals
    simp only [Except.ok.injEq] at h
  case fee => exact ⟨some (st.queue.removeFee op.change).1, by rw [← h]⟩
  all_goals exact ⟨none, by rw [← h]⟩

lemma processOps_balanced_mono (cfg : Config) (coin : String) :
    ∀ (ops : List Operation) (st st' : ReplayState),
      processOps cfg coin st ops = .ok st' →
      ∀ x ∈ st.balanced, x ∈ st'.balanced := by
  intro ops
  induction ops with
  | nil =>
      intro st st' h x hx
      simp only [processOps, Except.ok.injEq] at h
      rwa [← h]
  | cons op rest ih =>
      intro st st' h x hx
      simp only [processOps] at h
      cases hp : processOp cfg coin st op with
      | error e => rw [hp] at h; simp at h
      | ok st1 =>
          rw [hp] at h
          obtain ⟨sc, hb⟩ := processOp_balanced cfg coin st op st1 hp
          exact ih st1 st' h x (by rw [hb]; exact List.mem_append_left _ hx)

lemma processOps_mem (cfg : Config) (coin : String) :
    ∀ (ops : List Operation) (st st' : ReplayState),
      processOps cfg coin st ops = .ok st' →
      ∀ op ∈ ops, ∃ sc, (op, sc) ∈ st'.balanced := by
  intro ops
  induction ops with
  | nil => intro st st' _ op hop; simp at hop
  | cons op0 rest ih =>
      intro st st' h op hop
      simp only [processOps] at h
      cases hp : processOp cfg coin st op0 with
      | error e => rw [hp] at h; simp at h
      | ok st1 =>
          rw [hp] at h
          rcases List.mem_cons.mp hop with hop | hop
          · subst hop
            obtain ⟨sc, hb⟩ := processOp_balanced cfg coin st op st1 hp
            refine ⟨sc, processOps_balanced_mono cfg coin rest st1 st' h _ ?_⟩
            rw [hb]
            exact List.mem_append_right _ (by simp)
          · exact ih st1 st' h op hop

lemma processOps_balanced_src (cfg : Config) (coin : String) :
    ∀ (ops : List Operation) (st st' : ReplayState),
      processOps cfg coin st ops = .ok st' →
      ∀ x ∈ st'.balanced, x ∈ st.balanced ∨ x.1 ∈ ops := by
  intro ops
  induction ops with
  | nil =>
      intro st st' h x hx
      simp only [processOps, Except.ok.injEq] at h
      exact Or.inl (h ▸ hx)
  | cons op0 rest ih =>
      intro st st' h x hx
      simp only [processOps] at h
      cases hp : processOp cfg coin st op0 with
      | error e => rw [hp] at h; simp at h
      | ok st1 =>
          rw [hp] at h
          rcases ih st1 st' h x hx with h1 | h1
          · obtain ⟨sc, hb⟩ := processOp_balanced cfg coin st op0 st1 hp
            rw [hb] at h1
            rcases List.mem_append.mp h1 with h1 | h1
            · exact Or.inl h1
            · simp at h1
              subst h1
              exact Or.inr (by simp)
          · exact Or.inr (List.mem_cons_of_mem _ h1)

lemma replayPlatforms_mem (cfg : Config) (coin : String) :
    ∀ (groups : List (String × List Operation))
      (w : List (Operation × List SoldCoin))
      (pls : List (String × ReplayState))
      (w' : List (Operation × List SoldCoin)),
      replayPlatforms cfg coin w groups = .ok (pls, w') →
      ∀ g ∈ groups, ∀ op ∈ g.2,
        ∃ entry ∈ pls, ∃ sc, (op, sc) ∈ entry.2.balanced := by
  intro groups
  induction groups with
  | nil => intro w pls w' _ g hg; simp at hg
  | cons hd rest ih =>
      intro w pls w' h g hg op hop
      obtain ⟨platform, ops⟩ := hd
      cases hp : processOps cfg coin
          { queue := ⟨[], 0⟩, balanced := [], withdrawals := w } ops with
      | error e => simp [replayPlatforms, hp] at h
      | ok st =>
          cases hr : replayPlatforms cfg coin st.withdrawals rest with
          | error e => simp [replayPlatforms, hp, hr] at h
          | ok bw =>
              obtain ⟨others, w2⟩ := bw
              simp only [replayPlatforms, hp, hr, Except.ok.injEq,
                Prod.mk.injEq] at h
              obtain ⟨hpls, _⟩ := h
              rcases List.mem_cons.mp hg with hg | hg
              · subst hg
                obtain ⟨sc, hsc⟩ := processOps_mem cfg coin ops _ st hp op hop
                exact ⟨(platform, st), by rw [← hpls]; simp, sc, hsc⟩
              · obtain ⟨entry, hentry, sc, hsc⟩ :=
                  ih st.withdrawals others w2 hr g hg op hop
                exact ⟨entry, by rw [← hpls]; exact List.mem_cons_of_mem _ hentry,
                  sc, hsc⟩

lemma replayPlatforms_src (cfg : Config) (coin : String) :
    ∀ (groups : List (String × List Operation))
      (w : List (Operation × List SoldCoin))
      (pls : List (String × ReplayState))
      (w' : List (Operation × List SoldCoin)),
      replayPlatforms cfg coin w groups = .ok (pls, w') →
      ∀ entry ∈ pls, ∀ x ∈ entry.2.balanced, ∃ g ∈ groups, x.1 ∈ g.2 := by
  intro groups
  induction groups with
  | nil =>
      intro w pls w' h entry hentry
      simp only [replayPlatforms, Except.ok.injEq, Prod.mk.injEq] at h
      rw [← h.1] at hentry
      simp at hentry
  | cons hd rest ih =>
      intro w pls w' h entry hentry x hx
      obtain ⟨platform, ops⟩ := hd
      cases hp : processOps cfg coin
          { queue := ⟨[], 0⟩, balanced := [], withdrawals := w } ops with
      | error e => simp [replayPlatforms, hp] at h
      | ok st =>
          cases hr : replayPlatforms cfg coin st.withdrawals rest with
          | error e => simp [replayPlatforms, hp, hr] at h
          | ok bw =>
              obtain ⟨others, w2⟩ := bw
              simp only [replayPlatforms, hp, hr, Except.ok.injEq,
                Prod.mk.injEq] at h
              obtain ⟨hpls, _⟩ := h
              rw [← hpls] at hentry
              rcases List.mem_cons.mp hentry with he | he
              · subst he
                rcases processOps_balanced_src cfg coin ops _ st hp x hx
                  with h1 | h1
                · simp at h1
                · exact ⟨(platform, ops), List.mem_cons_self _ _, h1⟩
              · obtain ⟨g, hg, hxg⟩ := ih st.withdrawals others w2 hr entry he x hx
                exact ⟨g, List.mem_cons_of_mem _ hg, hxg⟩

lemma fillInOps_no_deposit (dms : List DepositMatch) :
    ∀ (bops : List (Operation × Option (List SoldCoin))),
      (∀ x ∈ bops, x.1.opType ≠ OpType.deposit) →
      fillInOps dms bops = .ok () := by
  intro bops
  induction bops with
  | nil => intro _; rfl
  | cons hd rest ih =>
      intro h
      have hhd : hd.1.opType ≠ OpType.deposit := h hd (List.mem_cons_self _ _)
      obtain ⟨op, sc⟩ := hd
      simp only [fillInOps, if_neg hhd]
      exact ih fun x hx => h x (List.mem_cons_of_mem _ hx)

lemma fillInOps_deposit (dms : List DepositMatch) :
    ∀ (bops : List (Operation × Option (List SoldCoin))),
      (∃ x ∈ bops, x.1.opType = OpType.deposit) →
      ∃ e, fillInOps dms bops = .error e := by
  intro bops
  induction bops with
  | nil => rintro ⟨x, hx, _⟩; simp at hx
  | cons hd rest ih =>
      rintro ⟨x, hx, hxd⟩
      obtain ⟨op, sc⟩ := hd
      by_cases hd1 : op.opType = OpType.deposit
      · by_cases hm : depositHasMatch dms op = true
        · exact ⟨.typeError, by simp [fillInOps, hd1, hm]⟩
        · exact ⟨.stopIteration, by simp [fillInOps, hd1, hm]⟩
      · rcases List.mem_cons.mp hx with hx | hx
        · subst hx; exact absurd hxd hd1
        · obtain ⟨e, he⟩ := ih ⟨x, hx, hxd⟩
          exact ⟨e, by simp [fillInOps, hd1, he]⟩

lemma fillInOps_deposit_matched (dms : List DepositMatch) :
    ∀ (bops : List (Operation × Option (List SoldCoin))),
      (∃ x ∈ bops, x.1.opType = OpType.deposit) →
      (∀ x ∈ bops, x.1.opType = OpType.deposit →
        depositHasMatch dms x.1 = true) →
      fillInOps dms bops = .error .typeError := by
  intro bops
  induction bops with
  | nil => rintro ⟨x, hx, _⟩; simp at hx
  | cons hd rest ih =>
      rintro ⟨x, hx, hxd⟩ hall
      obtain ⟨op, sc⟩ := hd
      by_cases hd1 : op.opType = OpType.deposit
      · have hm := hall (op, sc) (List.mem_cons_self _ _) hd1
        simp [fillInOps, hd1, hm]
      · rcases List.mem_cons.mp hx with hx | hx
        · subst hx; exact absurd hxd hd1
        · have := ih ⟨x, hx, hxd⟩
            fun y hy => hall y (List.mem_cons_of_mem _ hy)
          simp [fillInOps, hd1, this]

lemma fillInAll_deposit (dms : List DepositMatch) :
    ∀ (pls : List (String × ReplayState)),
      (∃ entry ∈ pls, ∃ x ∈ entry.2.balanced, x.1.opType = OpType.deposit) →
      ∃ e, fillInAll dms pls = .error e := by
  intro pls
  induction pls with
  | nil => rintro ⟨entry, hentry, _⟩; simp at hentry
  | cons hd rest ih =>
      rintro ⟨entry, hentry, x, hx, hxd⟩
      obtain ⟨p, st⟩ := hd
      by_cases hdep : ∃ y ∈ st.balanced, y.1.opType = OpType.deposit
      · obtain ⟨e, he⟩ := fillInOps_deposit dms st.balanced hdep
        exact ⟨e, by simp [fillInAll, he]⟩
      · push_neg at hdep
        have hok : fillInOps dms st.balanced = .ok () :=
          fillInOps_no_deposit dms st.balanced hdep
        rcases List.mem_cons.mp hentry with he | he
        · subst he
          exact absurd hxd (hdep x hx)
        · obtain ⟨e, herr⟩ := ih ⟨entry, he, x, hx, hxd⟩
          exact ⟨e, by simp [fillInAll, hok, herr]⟩

lemma fillInAll_deposit_matched (dms : List DepositMatch) :
    ∀ (pls : List (String × ReplayState)),
      (∃ entry ∈ pls, ∃ x ∈ entry.2.balanced, x.1.opType = OpType.deposit) →
      (∀ entry ∈ pls, ∀ x ∈ entry.2.balanced,
        x.1.opType = OpType.deposit → depositHasMatch dms x.1 = true) →
      fillInAll dms pls = .error .typeError := by
  intro pls
  induction pls with
  | nil => rintro ⟨entry, hentry, _⟩; simp at hentry
  | cons hd rest ih =>
      rintro ⟨entry, hentry, x, hx, hxd⟩ hall
      obtain ⟨p, st⟩ := hd
      by_cases hdep : ∃ y ∈ st.balanced, y.1.opType = OpType.deposit
      · have := fillInOps_deposit_matched dms st.balanced hdep
          fun y hy hyd => hall (p, st) (List.mem_cons_self _ _) y hy hyd
        simp [fillInAll, this]
      · push_neg at hdep
        have hok : fillInOps dms st.balanced = .ok () :=
          fillInOps_no_deposit dms st.balanced hdep
        rcases List.mem_cons.mp hentry with he | he
        · subst he
          exact absurd hxd (hdep x hx)
        · have := ih ⟨entry, he, x, hx, hxd⟩
            fun e hemem y hy hyd => hall e (List.mem_cons_of_mem _ hemem) y hy hyd
          simp [fillInAll, hok, this]

/-- Claim C9: once the operations of an asset contain a Deposit with a
recorded transfer match, `_balance_coin` never returns normally; when the
replay phase itself succeeds and every Deposit has a match, the failure
is precisely the TypeError raised by assigning into the appended
immutable (operation, sold_coins) pair. -/
theorem balance_coin_matched_deposit_never_returns (cfg : Config)
    (dms : List DepositMatch) (coin : String) (ops : List Operation)
    (hdep : ∃ op ∈ ops, op.opType = OpType.deposit ∧
      depositHasMatch dms op = true) :
    (∀ r, balanceCoin cfg dms coin ops ≠ .ok r) ∧
    ((∃ bw, replayPlatforms cfg coin []
        (groupByKey (fun op => op.platform) ops) = .ok bw) →
      (∀ op ∈ ops, op.opType = OpType.deposit →
        depositHasMatch dms op = true) →
      balanceCoin cfg dms coin ops = .error .typeError) := by
  obtain ⟨op0, hop0, hty0, _⟩ := hdep
  constructor
  · intro r hr
    cases hrep : replayPlatforms cfg coin []
        (groupByKey (fun op => op.platform) ops) with
    | error e => simp [balanceCoin, hrep] at hr
    | ok bw =>
        obtain ⟨pls, w'⟩ := bw
        obtain ⟨g, hg, hopg⟩ :=
          groupByKey_mem (fun o => o.platform) op0 ops hop0
        obtain ⟨entry, hentry, sc, hsc⟩ :=
          replayPlatforms_mem cfg coin _ [] pls w' hrep g hg op0 hopg
        obtain ⟨e, he⟩ := fillInAll_deposit dms pls
          ⟨entry, hentry, (op0, sc), hsc, hty0⟩
        simp [balanceCoin, hrep, he] at hr
  · rintro ⟨⟨pls, w'⟩, hrep⟩ hall
    obtain ⟨g, hg, hopg⟩ :=
      groupByKey_mem (fun o => o.platform) op0 ops hop0
    obtain ⟨entry, hentry, sc, hsc⟩ :=
      replayPlatforms_mem cfg coin _ [] pls w' hrep g hg op0 hopg
    have hall' : ∀ entry ∈ pls, ∀ x ∈ entry.2.balanced,
        x.1.opType = OpType.deposit → depositHasMatch dms x.1 = true := by
      intro e he x hx hxd
      obtain ⟨q, hq, hxq⟩ :=
        replayPlatforms_src cfg coin _ [] pls w' hrep e he x hx
      exact hall x.1 (groupByKey_src (fun o => o.platform) x.1 ops
        ⟨q, hq, hxq⟩) hxd
    have hfill := fillInAll_deposit_matched dms pls
      ⟨entry, hentry, (op0, sc), hsc, hty0⟩ hall'
    simp [balanceCoin, hrep, hfill]

theorem balance_coin_matched_deposit_never_returns_witness :
    balanceCoin cfgEx [dmEx] "EOS" [buyA, wdA, depB] ≠ .ok ([], []) :=
  (balance_coin_matched_deposit_never_returns cfgEx [dmEx] "EOS"
    [buyA, wdA, depB] ⟨depB, by simp, rfl, by decide⟩).1 ([], [])

end CoinTaxman
